import Mathlib

/-!
Verification of the pin-generation pipeline (`pinGenerator` module).

A shallow embedding of the core pin-generation logic of this repository:
the color-substitution helpers (`applyColorMap`, `applyActiveColor`), the
compositing arithmetic (`compositePin`), and the orchestrating
`generatePins` pipeline.

Modelling conventions:
* JavaScript numbers are modelled as rationals (`ℚ`); `Math.round x` is
  `⌊x + 1/2⌋` (its value on every real argument).  The two validated scale
  parameters, which in JavaScript may also be `NaN`/`±Infinity` before
  validation, are modelled by `JSNum`.
* Strings are `String`/`List Char`.  The case canonicalisation performed by
  an `i`-flagged (non-`u`) JavaScript regular expression is ASCII
  lowercasing (in non-unicode mode a non-ASCII character never canonicalises
  onto an ASCII one, and all match tokens of this program are ASCII).
* `String.prototype.replace(regex, str)` is modelled with `str` inserted
  literally; the `$`-escape expansion of the replacement string is not
  modelled (the replacement strings of this program are color values).
* Filesystem, `sharp` rasterisation and the JSON template are oracles in a
  `World` structure; the observable actions of a run are recorded as a
  trace of `Ev` events in program order.
* `Array.prototype.sort((a,b) => a.localeCompare(b))` is modelled as a
  stable insertion sort by code-point order (`localeCompare` agrees with it
  on the same-case ASCII names considered here), and a JavaScript object
  keyed by strings as an insertion-ordered association list where an
  assignment to an existing key updates it in place (`objSet`).
-/

namespace PinGen

attribute [local semireducible] Rat.add Rat.mul Rat.sub Rat.inv

/-- `Math.round`: round half toward positive infinity. -/
def jsRound (q : ℚ) : ℤ := ⌊q + (1 : ℚ) / 2⌋

/-- A JavaScript number as produced by `Number(...)`: either a finite value
or one of the non-finite values `NaN`, `+Infinity`, `-Infinity`. -/
inductive JSNum where
  | nan : JSNum
  | posInf : JSNum
  | negInf : JSNum
  | fin : ℚ → JSNum
deriving DecidableEq, Repr

/-- `Number.isFinite`. -/
def JSNum.isFinite : JSNum → Bool
  | .fin _ => true
  | _ => false

/-- The JavaScript comparison `x <= 0` (false on `NaN`). -/
def JSNum.leZero : JSNum → Bool
  | .nan => false
  | .posInf => false
  | .negInf => true
  | .fin q => decide (q ≤ 0)

/-- The JavaScript comparison `x > 1` (false on `NaN`). -/
def JSNum.gtOne : JSNum → Bool
  | .nan => false
  | .posInf => true
  | .negInf => false
  | .fin q => decide (1 < q)

/-- The finite value of a `JSNum`; only used after validation has
established finiteness. -/
def JSNum.toQ : JSNum → ℚ
  | .fin q => q
  | _ => 0

/-- `!Number.isFinite(COMPOSITE_SCALE) || COMPOSITE_SCALE <= 0`. -/
def compositeScaleBad (c : JSNum) : Bool := !c.isFinite || c.leZero

/-- `!Number.isFinite(ICON_SCALE) || ICON_SCALE <= 0 || ICON_SCALE > 1`. -/
def iconScaleBad (s : JSNum) : Bool := !s.isFinite || s.leZero || s.gtOne

/-! ## Characters and case-insensitive matching -/

/-- ASCII lowercasing; the case canonicalisation of an `i`-flagged
JavaScript regular expression restricted to the ASCII tokens used here
(it is `Char.toLower` of the standard library). -/
def lowChar (c : Char) : Char :=
  if 65 ≤ c.toNat ∧ c.toNat ≤ 90 then Char.ofNat (c.toNat + 32) else c

/-- A regular-expression word character `\w`, that is `[A-Za-z0-9_]`. -/
def isWordChar (c : Char) : Bool :=
  decide ((65 ≤ c.toNat ∧ c.toNat ≤ 90) ∨ (97 ≤ c.toNat ∧ c.toNat ≤ 122)
    ∨ (48 ≤ c.toNat ∧ c.toNat ≤ 57) ∨ c.toNat = 95)

/-- An ASCII letter, as matched by the character class `[a-z]` under `i`. -/
def isAsciiAlpha (c : Char) : Bool :=
  decide ((65 ≤ c.toNat ∧ c.toNat ≤ 90) ∨ (97 ≤ c.toNat ∧ c.toNat ≤ 122))

/-- `/^[a-z]+$/i.test from`: a nonempty all-ASCII-alphabetic token. -/
def isAlphaTok (t : List Char) : Bool := !t.isEmpty && t.all isAsciiAlpha

/-- Lowercase a character list. -/
def lowerL (s : List Char) : List Char := s.map lowChar

/-- Case-insensitive prefix test: does `tok` match at the head of `s`? -/
def ciPrefix (tok s : List Char) : Bool :=
  List.isPrefixOf (lowerL tok) (lowerL s)

/-- The word-boundary assertion `\b` between two (possibly absent)
adjacent characters: it holds when exactly one side is a word character. -/
def bnd (l r : Option Char) : Bool :=
  (match l with | none => false | some c => isWordChar c)
    != (match r with | none => false | some c => isWordChar c)

/-- Does the pattern match at the current position?  `tok` is the literal
(escaped) token, `prev` the character before the current position, `s` the
rest of the subject; `bB`/`bA` state whether the pattern carries a leading /
trailing `\b`. -/
def hit (bB bA : Bool) (tok : List Char) (prev : Option Char) (s : List Char) : Bool :=
  !tok.isEmpty && ciPrefix tok s &&
    (!bB || bnd prev s.head?) &&
    (!bA || bnd ((s.take tok.length).getLast?) ((s.drop tok.length).head?))

/-- One global case-insensitive `String.replace` pass: scan the subject
left to right, replace each leftmost non-overlapping match of `tok` by
`to`, and continue after the matched text (the replacement itself is not
rescanned).  Structural recursion on an explicit fuel, always run with
fuel = subject length. -/
def scanF (bB bA : Bool) (tok rep : List Char) : Nat → Option Char → List Char → List Char
  | 0, _, s => s
  | _ + 1, _, [] => []
  | fuel + 1, prev, c :: cs =>
    if hit bB bA tok prev (c :: cs) then
      rep ++ scanF bB bA tok rep fuel ((List.take tok.length (c :: cs)).getLast?)
        (List.drop tok.length (c :: cs))
    else
      c :: scanF bB bA tok rep fuel (some c) cs

/-- `subject.replace(pattern, to)` with pattern the `gi`-flagged literal
`tok`, optionally surrounded by `\b` assertions. -/
def scanRepl (bB bA : Bool) (tok rep s : List Char) : List Char :=
  scanF bB bA tok rep s.length none s

/-- One entry of the replacement map of `applyColorMap`: skip if either
side is empty (falsy); an all-alphabetic token is matched as a whole word
(`\btok\b`, case-insensitive), any other token as a literal substring. -/
def applyEntry (s : List Char) (e : List Char × List Char) : List Char :=
  if e.1.isEmpty || e.2.isEmpty then s
  else scanRepl (isAlphaTok e.1) (isAlphaTok e.1) e.1 e.2 s

/-- `applyColorMap` of the source: fold the replacement entries, in map
iteration order, over the SVG text. -/
def applyColorMap (s : List Char) (m : List (List Char × List Char)) : List Char :=
  m.foldl applyEntry s

/-- `applyColorMap` at `String` level. -/
def applyColorMapS (s : String) (m : List (String × String)) : String :=
  ⟨applyColorMap s.data (m.map fun e => (e.1.data, e.2.data))⟩

/-- `applyActiveColor` of the source:
`svg.replace(/#000000\b/gi, color).replace(/#000\b/gi, color)
    .replace(/currentColor/gi, color)`. -/
def applyActiveColor (s color : List Char) : List Char :=
  scanRepl false false ("currentColor".data) color
    (scanRepl false true ("#000".data) color
      (scanRepl false true ("#000000".data) color s))

/-- `applyActiveColor` at `String` level. -/
def applyActiveColorS (s color : String) : String :=
  ⟨applyActiveColor s.data color.data⟩

/-! ## `compositePin` placement arithmetic

`compositePin(baseInput, icon, outPath, width, height, offsetX, offsetY,
compositeScale)` computes
`scaledWidth = Math.round(width * compositeScale)`,
`left = Math.round((scaledWidth - icon.width) / 2 + offsetX * compositeScale)`
and symmetrically for the vertical axis. -/

/-- `Math.round(width * compositeScale)` — the intermediate composite
canvas dimension. -/
def compositeScaledDim (d : ℤ) (cs : ℚ) : ℤ := jsRound ((d : ℚ) * cs)

/-- The icon's left placement inside the upscaled composite canvas. -/
def compositePinLeft (width iconW : ℤ) (ox cs : ℚ) : ℤ :=
  jsRound (((compositeScaledDim width cs - iconW : ℤ) : ℚ) / 2 + ox * cs)

/-- The icon's top placement inside the upscaled composite canvas. -/
def compositePinTop (height iconH : ℤ) (oy cs : ℚ) : ℤ :=
  jsRound (((compositeScaledDim height cs - iconH : ℤ) : ℚ) / 2 + oy * cs)

/-! ## Derived sizes of `generatePins` -/

/-- `Math.round(Math.min(w, h) * ICON_SCALE * OUTPUT_SCALE)`. -/
def iconSizeQ (bw bh : ℤ) (s o : ℚ) : ℤ :=
  jsRound (((min bw bh : ℤ) : ℚ) * s * o)

/-- `Math.round(iconSize * COMPOSITE_SCALE)` — the composite-time icon
render size. -/
def iconRenderSizeQ (bw bh : ℤ) (s o c : ℚ) : ℤ :=
  jsRound ((iconSizeQ bw bh s o : ℚ) * c)

/-- `Math.round(d * OUTPUT_SCALE)` — a scaled base-pin dimension. -/
def scaledDim (d : ℤ) (o : ℚ) : ℤ := jsRound ((d : ℚ) * o)

/-! ## Settings document model -/

/-- One `markerImages` entry: `{uri, color}`. -/
structure Marker where
  uri : String
  color : String
deriving DecidableEq, Repr

/-- Assignment `obj[k] = v` on a JavaScript object modelled as an
insertion-ordered association list: an existing key is updated in place
(keeping its position), a new key is appended. -/
def objSet (m : List (String × Marker)) (k : String) (v : Marker) :
    List (String × Marker) :=
  if m.any fun kv => kv.1 == k then
    m.map fun kv => if kv.1 == k then (k, v) else kv
  else m ++ [(k, v)]

/-- `MAP_PINS_BASE_URI.replace(/\/+$/, "")`: strip all trailing slashes. -/
def stripSlashes (s : String) : String :=
  ⟨(s.data.reverse.dropWhile fun c => c == '/').reverse⟩

/-- Stable insertion of a string into a sorted list (code-point order);
an element equal to one already present is inserted after it, matching the
stability of `Array.prototype.sort`. -/
def insertStr (a : String) : List String → List String
  | [] => [a]
  | b :: bs => if a.data < b.data then a :: b :: bs else b :: insertStr a bs

/-- `names.sort((a, b) => a.localeCompare(b))`, modelled as a stable
insertion sort by code-point order. -/
def sortStr : List String → List String
  | [] => []
  | a :: as => insertStr a (sortStr as)

/-! ## Configuration and world -/

/-- The resolved configuration of a `generatePins` run (environment
variables after defaulting; `Number(...)` conversion of the numeric ones
is upstream of this model). -/
structure Config where
  compositeScale : JSNum
  outputScale : ℚ
  iconScale : JSNum
  basePinColorDefault : String
  basePinColorActive : String
  basePinColorOwn : String
  basePinRingColorActive : String
  basePinStrokeColorOwn : String
  clusterColor : String
  clusterTextColor : String
  iconColorActive : String
  iconColorDefault : String
  iconOffsetXActive : ℚ
  iconOffsetXDefault : ℚ
  iconOffsetYActive : ℚ
  iconOffsetYDefault : ℚ
  mapPinsBaseUri : String

/-- The external collaborators of a run: directory contents, file
contents, the `sharp` metadata oracle, and whether the JSON template
parses and has the `layerStyles.clusterCount` object.
`templateMarkerImages` is the template's pre-existing `markerImages`
content; the pipeline overwrites that key without ever reading it, so the
field is (faithfully) never consulted. -/
structure World where
  svgDirFiles : List String
  baseDirHas : String → Bool
  svgContent : String → List Char
  baseContent : String → List Char
  metaOf : List Char → Option (ℤ × ℤ)
  templateOk : Bool
  templateMarkerImages : List (String × Marker)

/-- Observable actions of a run, in program order. -/
inductive Ev where
  | mkdirOut : Ev
  | listSvg : Ev
  | accessBase : String → Ev
  | readFile : String → Ev
  | renderIcon : String → Bool → Ev
  | writeBasePng : String → Ev
  | writeCompositePng : String → Ev
  | readTemplate : Ev
  | writeSettings : Ev
deriving DecidableEq, Repr

/-- The value returned by a successful run, as far as the claims observe
it: the sorted non-reserved icon names and the `markerImages` object. -/
structure RunOutput where
  svgNames : List String
  markerImages : List (String × Marker)
deriving DecidableEq, Repr

/-- Is there any `renderIcon` event in the trace? -/
def rendersIn (t : List Ev) : Bool :=
  t.any fun e => match e with | .renderIcon _ _ => true | _ => false

/-- Is there any output-file write (base PNG, composited PNG or settings
document) in the trace? -/
def outWritesIn (t : List Ev) : Bool :=
  t.any fun e => match e with
    | .writeBasePng _ => true
    | .writeCompositePng _ => true
    | .writeSettings => true
    | _ => false

/-- `Except.error`? -/
def isErrB : Except String RunOutput → Bool
  | .error _ => true
  | .ok _ => false

/-! ## The `generatePins` pipeline -/

/-- `name.toLowerCase().endsWith(".svg")` — the directory-listing filter. -/
def svgFilter (n : String) : Bool :=
  List.isSuffixOf ".svg".data (lowerL n.data)

/-- The filtered directory listing (`listSvgFiles`). -/
def listSvgD (w : World) : List String := w.svgDirFiles.filter svgFilter

/-- `path.basename(p, ".svg")` on an entry name: the `.svg` suffix is
removed (case-sensitively) unless the whole name is `.svg`. -/
def stripSvgExt (n : String) : String :=
  if n ≠ ".svg" ∧ List.isSuffixOf ".svg".data n.data then
    ⟨n.data.take (n.data.length - 4)⟩
  else n

/-- The three reserved base-pin names. -/
def reservedNames : List String := ["defaultPin", "defaultPinActive", "ownLocationPin"]

/-- The non-reserved icon names, sorted (`svgNames` of the source). -/
def svgNamesOf (w : World) : List String :=
  sortStr (((listSvgD w).map stripSvgExt).filter fun n => !(reservedNames.contains n))

/-- The recolored default base pin SVG. -/
def defaultColored (cfg : Config) (w : World) : List Char :=
  applyColorMap (w.baseContent "defaultPin.svg")
    [("#F7F5F0".data, cfg.basePinColorDefault.data)]

/-- The recolored active base pin SVG. -/
def activeColored (cfg : Config) (w : World) : List Char :=
  applyColorMap (w.baseContent "defaultPinActive.svg")
    [("#F7F5F0".data, cfg.basePinRingColorActive.data),
     ("#000000".data, cfg.basePinColorActive.data),
     ("#000".data, cfg.basePinColorActive.data),
     ("black".data, cfg.basePinColorActive.data)]

/-- The recolored own-location base pin SVG. -/
def ownColored (cfg : Config) (w : World) : List Char :=
  applyColorMap (w.baseContent "ownLocationPin.svg")
    [("#F7F5F0".data, cfg.basePinColorOwn.data),
     ("#141414".data, cfg.basePinStrokeColorOwn.data)]

/-- `getBaseMeta`: the `sharp` metadata of a buffer; missing or falsy
(zero) dimensions are an error. -/
def getBaseMeta (w : World) (buf : List Char) : Except String (ℤ × ℤ) :=
  match w.metaOf buf with
  | none => .error "Base pin metadata is missing width/height."
  | some (x, y) =>
    if x = 0 ∨ y = 0 then .error "Base pin metadata is missing width/height."
    else .ok (x, y)

/-- The events of the per-icon loop: the loop runs over every listed
`.svg` file (reserved names included); for each it reads the file, renders
the default-tinted then the active-tinted icon at the composite render
size, and writes the two composited PNGs. -/
def iconEvents (files : List String) : List Ev :=
  files.flatMap fun f =>
    let n := stripSvgExt f
    [Ev.readFile f, Ev.renderIcon n false, Ev.renderIcon n true,
     Ev.writeCompositePng (n ++ ".png"), Ev.writeCompositePng (n ++ "Active.png")]

/-- The loop body of the settings builder: the `markerImages[name]` and
`markerImages[name + "Active"]` assignments for one icon name. -/
def addIconEntries (cfg : Config) (acc : List (String × Marker)) (n : String) :
    List (String × Marker) :=
  let baseUri := stripSlashes cfg.mapPinsBaseUri
  objSet (objSet acc n ⟨baseUri ++ "/" ++ n ++ ".png", cfg.basePinColorDefault⟩)
    (n ++ "Active") ⟨baseUri ++ "/" ++ n ++ "Active.png", cfg.basePinColorActive⟩

/-- The `markerImages` object: the three reserved entries in literal
order, then for each sorted non-reserved name the `name` and
`name + "Active"` assignments. -/
def mkMarkerImages (cfg : Config) (names : List String) : List (String × Marker) :=
  let baseUri := stripSlashes cfg.mapPinsBaseUri
  names.foldl (addIconEntries cfg)
    [("defaultPin", ⟨baseUri ++ "/defaultPin.png", cfg.basePinColorDefault⟩),
     ("defaultPinActive", ⟨baseUri ++ "/defaultPinActive.png", cfg.basePinColorActive⟩),
     ("ownLocationPin", ⟨baseUri ++ "/ownLocationPin.png", cfg.basePinColorOwn⟩)]

/-- Pipeline tail after the size validation: write the three standalone
base PNGs, run the per-icon loop, read the template and write the
settings document. -/
def pinsWrite (cfg : Config) (w : World) (ev : List Ev) :
    List Ev × Except String RunOutput :=
  let ev := ev ++ [Ev.writeBasePng "defaultPin.png", Ev.writeBasePng "defaultPinActive.png",
                   Ev.writeBasePng "ownLocationPin.png"]
  let names := svgNamesOf w
  let ev := ev ++ iconEvents (listSvgD w) ++ [Ev.readTemplate]
  if !w.templateOk then
    (ev, .error "Cannot set properties of undefined (setting textColor)")
  else
    (ev ++ [Ev.writeSettings], .ok ⟨names, mkMarkerImages cfg names⟩)

/-- Pipeline stage: derived-size computation and validation. -/
def pinsSizes (cfg : Config) (w : World) (ev : List Ev) (dw dh : ℤ) :
    List Ev × Except String RunOutput :=
  let o := cfg.outputScale
  let s := cfg.iconScale.toQ
  let c := cfg.compositeScale.toQ
  if iconSizeQ dw dh s o ≤ 0 ∨ iconRenderSizeQ dw dh s o c ≤ 0 then
    (ev, .error "ICON_SCALE, COMPOSITE_SCALE or OUTPUT_SCALE are too small; resulting icon size is 0.")
  else if min (scaledDim dw o) (scaledDim dh o) < iconRenderSizeQ dw dh s o c then
    (ev, .error "ICON_SCALE is too large; icon exceeds base pin size.")
  else pinsWrite cfg w ev

/-- Pipeline stage: read the three base SVGs, recolor them and extract
their metadata. -/
def pinsMeta (cfg : Config) (w : World) (ev : List Ev) :
    List Ev × Except String RunOutput :=
  match getBaseMeta w (defaultColored cfg w) with
  | .error e => (ev, .error e)
  | .ok (dw, dh) =>
    match getBaseMeta w (activeColored cfg w) with
    | .error e => (ev, .error e)
    | .ok _ =>
      match getBaseMeta w (ownColored cfg w) with
      | .error e => (ev, .error e)
      | .ok _ => pinsSizes cfg w ev dw dh

/-- Pipeline stage: `fs.access` on the three base SVGs (in source order),
then read them. -/
def pinsAccess (cfg : Config) (w : World) (ev : List Ev) :
    List Ev × Except String RunOutput :=
  let ev := ev ++ [Ev.accessBase "defaultPin.svg"]
  if !(w.baseDirHas "defaultPin.svg") then
    (ev, .error "ENOENT: no such file or directory, access defaultPin.svg")
  else
    let ev := ev ++ [Ev.accessBase "defaultPinActive.svg"]
    if !(w.baseDirHas "defaultPinActive.svg") then
      (ev, .error "ENOENT: no such file or directory, access defaultPinActive.svg")
    else
      let ev := ev ++ [Ev.accessBase "ownLocationPin.svg"]
      if !(w.baseDirHas "ownLocationPin.svg") then
        (ev, .error "ENOENT: no such file or directory, access ownLocationPin.svg")
      else
        pinsMeta cfg w (ev ++ [Ev.readFile "defaultPin.svg",
          Ev.readFile "defaultPinActive.svg", Ev.readFile "ownLocationPin.svg"])

/-- Pipeline stage: create the output directory, enumerate the icon
directory and fail when no `.svg` file is found. -/
def pinsEnum (cfg : Config) (w : World) : List Ev × Except String RunOutput :=
  let ev := [Ev.mkdirOut, Ev.listSvg]
  if (listSvgD w).isEmpty then (ev, .error "No SVG files found in svg folder.")
  else pinsAccess cfg w ev

/-- The `generatePins` pipeline: validate the two scale parameters first
(before touching the filesystem), then run the remaining stages. -/
def generatePins (cfg : Config) (w : World) : List Ev × Except String RunOutput :=
  if compositeScaleBad cfg.compositeScale then
    ([], .error "COMPOSITE_SCALE must be a positive number.")
  else if iconScaleBad cfg.iconScale then
    ([], .error "ICON_SCALE must be a number between 0 and 1.")
  else pinsEnum cfg w

/-- The offset actually passed for the default composite by
`generatePins`: `ICON_OFFSET_X_DEFAULT * OUTPUT_SCALE`, applied by
`compositePin` with `width = scaledWidthDefault` and the composite
scale. -/
def defaultCompositeLeft (cfg : Config) (dw iconW : ℤ) : ℤ :=
  compositePinLeft (scaledDim dw cfg.outputScale) iconW
    (cfg.iconOffsetXDefault * cfg.outputScale) cfg.compositeScale.toQ

/-! ## Concrete example runs -/

/-- A concrete resolved configuration (the source's defaults, with
`COMPOSITE_SCALE = 2`, `ICON_SCALE = 1/2`, `OUTPUT_SCALE = 1`). -/
def cfgStd : Config where
  compositeScale := .fin 2
  outputScale := 1
  iconScale := .fin (1/2)
  basePinColorDefault := "#FFF"
  basePinColorActive := "#000"
  basePinColorOwn := "#FFF"
  basePinRingColorActive := "#FFF"
  basePinStrokeColorOwn := "#000"
  clusterColor := "#000"
  clusterTextColor := "#000"
  iconColorActive := "#FFF"
  iconColorDefault := "#000"
  iconOffsetXActive := 0
  iconOffsetXDefault := 0
  iconOffsetYActive := 0
  iconOffsetYDefault := 0
  mapPinsBaseUri := "pngWithSvg"

/-- `cfgStd` with `ICON_SCALE = 1`, making the composite render size
(144) exceed the scaled base's smaller dimension (72). -/
def cfgBig : Config := { cfgStd with iconScale := .fin 1 }

/-- `cfgStd` with `COMPOSITE_SCALE = 0` (invalid). -/
def cfgZero : Config := { cfgStd with compositeScale := .fin 0 }

/-- An icon directory containing only the reserved file
`defaultPin.svg`; all base assets present, 72×72 metadata. -/
def worldReserved : World where
  svgDirFiles := ["defaultPin.svg"]
  baseDirHas := fun _ => true
  svgContent := fun _ => "<svg/>".data
  baseContent := fun _ => "<svg/>".data
  metaOf := fun _ => some (72, 72)
  templateOk := true
  templateMarkerImages := []

/-- An icon directory containing the colliding pair `a.svg` and
`aActive.svg`. -/
def worldPair : World where
  svgDirFiles := ["a.svg", "aActive.svg"]
  baseDirHas := fun _ => true
  svgContent := fun _ => "<svg/>".data
  baseContent := fun _ => "<svg/>".data
  metaOf := fun _ => some (72, 72)
  templateOk := true
  templateMarkerImages := []

/-- `worldReserved` with `ownLocationPin.svg` absent from the base-pin
directory. -/
def worldNoOwn : World :=
  { worldReserved with baseDirHas := fun f => !(f == "ownLocationPin.svg") }

/-! ## Arithmetic helper lemmas -/

theorem jsRound_add_int (q : ℚ) (n : ℤ) : jsRound (q + (n : ℚ)) = jsRound q + n := by
  unfold jsRound
  rw [show q + (n : ℚ) + 1 / 2 = q + 1 / 2 + (n : ℚ) by ring, Int.floor_add_int]

theorem jsRound_mono {p q : ℚ} (h : p ≤ q) : jsRound p ≤ jsRound q :=
  Int.floor_le_floor (by linarith)

/-! ## Claim C4 -/

/-- C4: `applyColorMap` matches an all-alphabetic token as a whole word,
case-insensitively, and any other token as a literal substring,
case-insensitively, with regular-expression metacharacters escaped; the
mapping `{black: "#FF0000"}` rewrites every standalone occurrence of the
word `black` but leaves `blackish` and `#000000` unchanged, and an entry
with an empty match token or an empty replacement is skipped. -/
theorem C4_applyColorMap_matching :
    applyColorMapS "fill=\"black\" stroke=\"Black\" black" [("black", "#FF0000")]
        = "fill=\"#FF0000\" stroke=\"#FF0000\" #FF0000"
    ∧ applyColorMapS "blackish" [("black", "#FF0000")] = "blackish"
    ∧ applyColorMapS "#000000" [("black", "#FF0000")] = "#000000"
    ∧ applyColorMapS "blackish #000000 black" [("black", "#FF0000")]
        = "blackish #000000 #FF0000"
    ∧ applyColorMapS "a#f7f5f0-b" [("#F7F5F0", "#ABC")] = "a#ABC-b"
    ∧ applyColorMapS "axb a.b" [("a.b", "Z")] = "axb Z"
    ∧ (∀ svg rep : String, applyColorMapS svg [("", rep)] = svg)
    ∧ (∀ svg tok : String, applyColorMapS svg [(tok, "")] = svg) := by
  refine ⟨by decide, by decide, by decide, by decide, by decide, by decide, ?_, ?_⟩
  · intro svg rep
    simp [applyColorMapS, applyColorMap, applyEntry]
  · intro svg tok
    simp [applyColorMapS, applyColorMap, applyEntry]

/-! ## Claim C6 -/

/-- C6 counterexample: the claim says every occurrence of the literal
token `#000` is replaced, but the source regexes carry a trailing `\b`,
so the occurrence of `#000` at the head of `"#000a"` is left untouched
(the claimed behaviour would produce `"reda"`). -/
theorem C6_counterexample :
    applyActiveColorS "#000a" "red" = "#000a"
    ∧ applyActiveColorS "#000a" "red" ≠ "reda" := by decide

/-- C6 (amended): `applyActiveColor` replaces, case-insensitively, every
occurrence of `#000000` and of `#000` that is not immediately followed by
a word character (the regexes end in `\b`), and every occurrence of
`currentColor` anywhere, with the single target color, leaving all other
text unchanged. -/
theorem C6_amended_applyActiveColor :
    applyActiveColorS "fill=\"#000\" stroke=\"CURRENTCOLOR\" x=\"#000000\"" "red"
        = "fill=\"red\" stroke=\"red\" x=\"red\""
    ∧ applyActiveColorS "#000000 #000 currentColor" "red" = "red red red"
    ∧ applyActiveColorS "#000;" "red" = "red;"
    ∧ applyActiveColorS "#0000" "red" = "#0000"
    ∧ applyActiveColorS "#000a" "red" = "#000a"
    ∧ applyActiveColorS "url(#000abc)" "red" = "url(#000abc)"
    ∧ applyActiveColorS "#00000" "red" = "#00000"
    ∧ applyActiveColorS "currentColorX" "red" = "redX"
    ∧ applyActiveColorS "no tokens here" "red" = "no tokens here" := by decide

/-! ## Claim C7 -/

/-- C7: in `compositePin` the icon's top-left placement equals the
centered position plus the `(x, y)` offset multiplied by the composite
scale, rounded; a larger `x` offset never moves the icon left and a
larger `y` offset never moves it up (positive offsets move right / down);
and with `ICON_OFFSET_X_DEFAULT = 10`, `COMPOSITE_SCALE = 2`,
`OUTPUT_SCALE = 1` the left placement in the default composite is exactly
20 pixels right of the zero-offset centered position. -/
theorem C7_composite_placement :
    (∀ (width iconW : ℤ) (ox cs : ℚ),
      compositePinLeft width iconW ox cs
        = jsRound (((compositeScaledDim width cs - iconW : ℤ) : ℚ) / 2 + ox * cs))
    ∧ (∀ (height iconH : ℤ) (oy cs : ℚ),
      compositePinTop height iconH oy cs
        = jsRound (((compositeScaledDim height cs - iconH : ℤ) : ℚ) / 2 + oy * cs))
    ∧ (∀ (width iconW : ℤ) (ox ox' cs : ℚ), 0 < cs → ox ≤ ox' →
      compositePinLeft width iconW ox cs ≤ compositePinLeft width iconW ox' cs)
    ∧ (∀ (height iconH : ℤ) (oy oy' cs : ℚ), 0 < cs → oy ≤ oy' →
      compositePinTop height iconH oy cs ≤ compositePinTop height iconH oy' cs)
    ∧ (∀ (cfg : Config), cfg.iconOffsetXDefault = 10 → cfg.compositeScale = .fin 2 →
        cfg.outputScale = 1 → ∀ (dw iconW : ℤ),
      defaultCompositeLeft cfg dw iconW
        = compositePinLeft (scaledDim dw 1) iconW 0 2 + 20) := by
  refine ⟨fun _ _ _ _ => rfl, fun _ _ _ _ => rfl, ?_, ?_, ?_⟩
  · intro width iconW ox ox' cs hcs h
    exact jsRound_mono (by nlinarith)
  · intro height iconH oy oy' cs hcs h
    exact jsRound_mono (by nlinarith)
  · intro cfg h10 h2 h1 dw iconW
    have : defaultCompositeLeft cfg dw iconW
        = compositePinLeft (scaledDim dw 1) iconW 10 2 := by
      unfold defaultCompositeLeft
      rw [h10, h2, h1]
      norm_num [JSNum.toQ]
    rw [this]
    unfold compositePinLeft
    rw [show ((compositeScaledDim (scaledDim dw 1) 2 - iconW : ℤ) : ℚ) / 2 + 10 * 2
          = ((compositeScaledDim (scaledDim dw 1) 2 - iconW : ℤ) : ℚ) / 2 + 0 * 2
            + ((20 : ℤ) : ℚ) by push_cast; ring]
    rw [jsRound_add_int]

/-- C7 witness: the monotonicity part applied at a concrete input. -/
theorem C7_witness :
    compositePinLeft 72 36 0 2 ≤ compositePinLeft 72 36 10 2
    ∧ defaultCompositeLeft { cfgStd with iconOffsetXDefault := 10 } 72 36
        = compositePinLeft (scaledDim 72 1) 36 0 2 + 20 :=
  ⟨C7_composite_placement.2.2.1 72 36 0 10 2 (by norm_num) (by norm_num),
   C7_composite_placement.2.2.2.2 _ rfl rfl rfl 72 36⟩

/-! ## Claim C5 -/

/-- C5: `generatePins` validates that the composite scale is a finite
number strictly greater than 0 and the icon scale a finite number in
(0, 1]; on any violating configuration it throws a descriptive error
before performing any filesystem operation — the event trace is empty. -/
theorem C5_scale_validation (cfg : Config) (w : World)
    (h : compositeScaleBad cfg.compositeScale = true ∨ iconScaleBad cfg.iconScale = true) :
    (generatePins cfg w).1 = [] ∧ isErrB (generatePins cfg w).2 = true := by
  unfold generatePins
  rcases h with h | h
  · simp [h, isErrB]
  · cases hc : compositeScaleBad cfg.compositeScale <;> simp [h, hc, isErrB]

/-- C5 witness: a configuration with `COMPOSITE_SCALE = 0` is rejected
with an empty trace. -/
theorem C5_witness :
    (generatePins cfgZero worldReserved).1 = []
    ∧ isErrB (generatePins cfgZero worldReserved).2 = true :=
  C5_scale_validation cfgZero worldReserved (Or.inl (by decide))

/-! ## Claim C8 -/

/-- C8: if any of `defaultPin.svg`, `defaultPinActive.svg`,
`ownLocationPin.svg` is absent from the base-pin directory, the run fails
before writing any output file (no base PNG, no per-icon PNG, no settings
document) and before rendering any icon. -/
theorem C8_missing_base (cfg : Config) (w : World)
    (h : w.baseDirHas "defaultPin.svg" = false
       ∨ w.baseDirHas "defaultPinActive.svg" = false
       ∨ w.baseDirHas "ownLocationPin.svg" = false) :
    isErrB (generatePins cfg w).2 = true
    ∧ outWritesIn (generatePins cfg w).1 = false
    ∧ rendersIn (generatePins cfg w).1 = false := by
  by_cases h1 : compositeScaleBad cfg.compositeScale
  · simp [generatePins, h1, isErrB, outWritesIn, rendersIn]
  · by_cases h2 : iconScaleBad cfg.iconScale
    · simp [generatePins, h1, h2, isErrB, outWritesIn, rendersIn]
    · by_cases h3 : (listSvgD w).isEmpty
      · simp [generatePins, pinsEnum, h1, h2, h3, isErrB, outWritesIn, rendersIn]
      · cases hb1 : w.baseDirHas "defaultPin.svg" <;>
          cases hb2 : w.baseDirHas "defaultPinActive.svg" <;>
          cases hb3 : w.baseDirHas "ownLocationPin.svg" <;>
          simp_all [generatePins, pinsEnum, pinsAccess, isErrB, outWritesIn, rendersIn]

/-- C8 witness: a base directory lacking `ownLocationPin.svg`. -/
theorem C8_witness :
    isErrB (generatePins cfgStd worldNoOwn).2 = true
    ∧ outWritesIn (generatePins cfgStd worldNoOwn).1 = false
    ∧ rendersIn (generatePins cfgStd worldNoOwn).1 = false :=
  C8_missing_base cfgStd worldNoOwn (Or.inr (Or.inr (by decide)))

/-! ## Claim C1 -/

/-- C1: for every run with icon scale `s ∈ (0, 1]`, composite scale
`c > 0` and output scale `o`, the composite-time icon render size equals
`round(round(min(baseW, baseH) * s * o) * c)` with `(baseW, baseH)` the
recolored default base pin's metadata; and whenever that size is not
strictly positive or exceeds `min(round(baseW * o), round(baseH * o))`
the run throws an error before any icon is rasterised. -/
theorem C1_composite_render_size (cfg : Config) (w : World) (s c : ℚ) (bw bh : ℤ)
    (hs : cfg.iconScale = .fin s) (hs0 : 0 < s) (hs1 : s ≤ 1)
    (hc : cfg.compositeScale = .fin c) (hc0 : 0 < c)
    (hm : getBaseMeta w (defaultColored cfg w) = .ok (bw, bh)) :
    iconRenderSizeQ bw bh s cfg.outputScale c
        = jsRound ((jsRound (((min bw bh : ℤ) : ℚ) * s * cfg.outputScale) : ℚ) * c)
    ∧ ((iconRenderSizeQ bw bh s cfg.outputScale c ≤ 0
        ∨ min (scaledDim bw cfg.outputScale) (scaledDim bh cfg.outputScale)
            < iconRenderSizeQ bw bh s cfg.outputScale c) →
      isErrB (generatePins cfg w).2 = true
      ∧ rendersIn (generatePins cfg w).1 = false) := by
  refine ⟨rfl, fun hcond => ?_⟩
  have hv1 : compositeScaleBad cfg.compositeScale = false := by
    simp [hc, compositeScaleBad, JSNum.isFinite, JSNum.leZero]
    linarith
  have hv2 : iconScaleBad cfg.iconScale = false := by
    simp [hs, iconScaleBad, JSNum.isFinite, JSNum.leZero, JSNum.gtOne]
    constructor <;> linarith
  unfold generatePins
  rw [hv1, hv2]
  simp only [Bool.false_eq_true, if_false]
  by_cases h3 : (listSvgD w).isEmpty
  · simp [pinsEnum, h3, isErrB, rendersIn]
  · cases hb1 : w.baseDirHas "defaultPin.svg"
    · simp [pinsEnum, pinsAccess, h3, hb1, isErrB, rendersIn]
    · cases hb2 : w.baseDirHas "defaultPinActive.svg"
      · simp [pinsEnum, pinsAccess, h3, hb1, hb2, isErrB, rendersIn]
      · cases hb3 : w.baseDirHas "ownLocationPin.svg"
        · simp [pinsEnum, pinsAccess, h3, hb1, hb2, hb3, isErrB, rendersIn]
        · rcases hA : getBaseMeta w (activeColored cfg w) with eA | pA
          · simp [pinsEnum, pinsAccess, pinsMeta, h3, hb1, hb2, hb3, hm, hA,
              isErrB, rendersIn]
          · rcases hO : getBaseMeta w (ownColored cfg w) with eO | pO
            · simp [pinsEnum, pinsAccess, pinsMeta, h3, hb1, hb2, hb3, hm, hA, hO,
                isErrB, rendersIn]
            · simp only [pinsEnum, pinsAccess, pinsMeta, h3, hb1, hb2, hb3, hm, hA, hO,
                Bool.not_true, Bool.false_eq_true, if_false, Bool.true_eq_false,
                ite_false, ite_true]
              unfold pinsSizes
              rw [hs, hc]
              simp only [JSNum.toQ]
              split
              · exact ⟨rfl, rfl⟩
              · rename_i hno1
                split
                · exact ⟨rfl, rfl⟩
                · rename_i hno2
                  rcases hcond with hcond | hcond
                  · exact absurd (Or.inr hcond) hno1
                  · exact absurd hcond hno2

/-- C1 witness: with `ICON_SCALE = 1`, `COMPOSITE_SCALE = 2`,
`OUTPUT_SCALE = 1` on a 72×72 base, the composite render size is 144,
which exceeds 72, and the run errors without rendering any icon. -/
theorem C1_witness :
    iconRenderSizeQ 72 72 1 1 2
        = jsRound ((jsRound (((min 72 72 : ℤ) : ℚ) * 1 * 1) : ℚ) * 2)
    ∧ isErrB (generatePins cfgBig worldReserved).2 = true
    ∧ rendersIn (generatePins cfgBig worldReserved).1 = false := by
  have h := C1_composite_render_size cfgBig worldReserved 1 2 72 72 rfl
    (by norm_num) (by norm_num) rfl (by norm_num) rfl
  exact ⟨h.1, h.2 (by decide)⟩

/-! ## Claim C2 -/

/-- C2 (code bug): with the reserved file `defaultPin.svg` present in the
icon directory, the run succeeds and the per-icon loop nevertheless
composites it, writing `defaultPin.png` and `defaultPinActive.png` as
composited per-icon outputs (overwriting the standalone base renders),
while the settings `markerImages` keeps only the three reserved entries. -/
theorem C2_reserved_is_composited :
    isErrB (generatePins cfgStd worldReserved).2 = false
    ∧ Ev.writeCompositePng "defaultPin.png" ∈ (generatePins cfgStd worldReserved).1
    ∧ Ev.writeCompositePng "defaultPinActive.png" ∈ (generatePins cfgStd worldReserved).1
    ∧ Ev.renderIcon "defaultPin" false ∈ (generatePins cfgStd worldReserved).1
    ∧ (generatePins cfgStd worldReserved).2.toOption.map (fun o => o.svgNames) = some [] := by
  decide

/-! ## Claim C3 -/

/-- C3 counterexample: a successful run over the icons `a.svg` and
`aActive.svg` (N = 2 non-reserved icons) produces a `markerImages` object
with 6 entries, not 3 + 2·N = 7. -/
theorem C3_counterexample :
    isErrB (generatePins cfgStd worldPair).2 = false
    ∧ (generatePins cfgStd worldPair).2.toOption.map
        (fun o => (o.markerImages.length, 3 + 2 * o.svgNames.length)) = some (6, 7)
    ∧ (6 : ℕ) ≠ 7 := by decide

/-! ## Claim C10 -/

/-- C10: settings keys are not guaranteed unique across icons — with the
non-reserved icons `a` and `aActive`, processed in sorted order, icon
`a`'s active entry at key `aActive` is overwritten by icon `aActive`'s
own default entry (uri `pngWithSvg/aActive.png`, default base-pin color
`#FFF`), leaving 6 < 3 + 2·2 distinct keys. -/
theorem C10_duplicate_key_overwrite :
    (generatePins cfgStd worldPair).2.toOption.map
        (fun o => (o.svgNames, o.markerImages.map Prod.fst,
          List.lookup "aActive" o.markerImages, o.markerImages.length))
      = some (["a", "aActive"],
          ["defaultPin", "defaultPinActive", "ownLocationPin", "a", "aActive", "aActiveActive"],
          some ⟨"pngWithSvg/aActive.png", "#FFF"⟩, 6)
    ∧ 6 < 3 + 2 * 2 := by decide

/-! ## Claim C3: amended statement -/

/-- The per-icon candidate keys, two per name, in processing order. -/
def pairKeys (names : List String) : List String :=
  names.flatMap fun n => [n, n ++ "Active"]

theorem pairKeys_cons (n : String) (rest : List String) :
    pairKeys (n :: rest) = n :: (n ++ "Active") :: pairKeys rest := by
  simp [pairKeys]

theorem pairKeys_length (names : List String) :
    (pairKeys names).length = 2 * names.length := by
  induction names with
  | nil => rfl
  | cons n rest ih => rw [pairKeys_cons]; simp only [List.length_cons, ih]; omega

theorem objSet_append (m : List (String × Marker)) (k : String) (v : Marker)
    (h : k ∉ m.map Prod.fst) : objSet m k v = m ++ [(k, v)] := by
  unfold objSet
  rw [if_neg]
  intro hany
  rw [List.any_eq_true] at hany
  obtain ⟨kv, hmem, hk⟩ := hany
  rw [beq_iff_eq] at hk
  exact h (hk ▸ List.mem_map_of_mem Prod.fst hmem)

/-- Every entry's uri is the stripped base URI, a slash, the entry's own
key and `.png`. -/
def UriInv (cfg : Config) (m : List (String × Marker)) : Prop :=
  ∀ kv ∈ m, kv.2.uri = stripSlashes cfg.mapPinsBaseUri ++ ("/" ++ kv.1 ++ ".png")

theorem objSet_uriInv (cfg : Config) (m : List (String × Marker)) (k : String)
    (v : Marker) (hm : UriInv cfg m)
    (hv : v.uri = stripSlashes cfg.mapPinsBaseUri ++ ("/" ++ k ++ ".png")) :
    UriInv cfg (objSet m k v) := by
  unfold objSet
  split
  · intro kv hkv
    obtain ⟨kv', hkv', heq⟩ := List.mem_map.1 hkv
    by_cases hk : kv'.1 == k
    · rw [if_pos hk] at heq
      rw [← heq]
      exact hv
    · rw [if_neg hk] at heq
      rw [← heq]
      exact hm kv' hkv'
  · intro kv hkv
    rcases List.mem_append.1 hkv with hmem | hmem
    · exact hm kv hmem
    · rw [List.mem_singleton] at hmem
      rw [hmem]
      exact hv

theorem addIconEntries_uriInv (cfg : Config) (acc : List (String × Marker))
    (n : String) (h : UriInv cfg acc) : UriInv cfg (addIconEntries cfg acc n) := by
  unfold addIconEntries
  have hA : ("Active.png" : String) = "Active" ++ ".png" := by decide
  refine objSet_uriInv cfg _ _ _ (objSet_uriInv cfg _ _ _ h ?_) ?_
  · simp [String.append_assoc]
  · show stripSlashes cfg.mapPinsBaseUri ++ "/" ++ n ++ "Active.png"
      = stripSlashes cfg.mapPinsBaseUri ++ ("/" ++ (n ++ "Active") ++ ".png")
    rw [hA]
    simp [String.append_assoc]

theorem foldl_addIconEntries_uriInv (cfg : Config) :
    ∀ (names : List String) (acc : List (String × Marker)), UriInv cfg acc →
      UriInv cfg (names.foldl (addIconEntries cfg) acc)
  | [], _, h => h
  | n :: rest, acc, h =>
    foldl_addIconEntries_uriInv cfg rest (addIconEntries cfg acc n)
      (addIconEntries_uriInv cfg acc n h)

theorem addIconEntries_keys (cfg : Config) (acc : List (String × Marker))
    (n : String) (h1 : n ∉ acc.map Prod.fst) (h2 : (n ++ "Active") ∉ acc.map Prod.fst)
    (h3 : n ≠ n ++ "Active") :
    (addIconEntries cfg acc n).map Prod.fst = acc.map Prod.fst ++ [n, n ++ "Active"] := by
  simp only [addIconEntries]
  rw [objSet_append _ _ _ h1, objSet_append]
  · simp
  · simp only [List.map_append, List.map_cons, List.map_nil, List.mem_append,
      List.mem_singleton]
    rintro (hmem | hmem)
    · exact h2 hmem
    · exact h3 hmem.symm

theorem foldl_addIconEntries_keys (cfg : Config) :
    ∀ (names : List String) (acc : List (String × Marker)),
      (acc.map Prod.fst ++ pairKeys names).Nodup →
      (names.foldl (addIconEntries cfg) acc).map Prod.fst
        = acc.map Prod.fst ++ pairKeys names
  | [], acc, _ => by simp [pairKeys]
  | n :: rest, acc, hnd => by
    rw [pairKeys_cons] at hnd
    have hnd' : (acc.map Prod.fst ++ ([n, n ++ "Active"] ++ pairKeys rest)).Nodup := by
      simpa using hnd
    rw [← List.append_assoc] at hnd'
    have hdisj := (List.nodup_append.1 hnd).2.2
    have h1 : n ∉ acc.map Prod.fst := fun hmem =>
      hdisj hmem (List.mem_cons_self _ _)
    have h2 : (n ++ "Active") ∉ acc.map Prod.fst := fun hmem =>
      hdisj hmem (List.mem_cons_of_mem _ (List.mem_cons_self _ _))
    have h3 : n ≠ n ++ "Active" := by
      have := (List.nodup_append.1 hnd).2.1
      rw [List.nodup_cons] at this
      exact fun he => this.1 (he ▸ List.mem_cons_self _ _)
    have hstep := addIconEntries_keys cfg acc n h1 h2 h3
    have := foldl_addIconEntries_keys cfg rest (addIconEntries cfg acc n)
      (by rw [hstep]; exact hnd')
    rw [List.foldl_cons, this, hstep, pairKeys_cons]
    simp

/-- Every non-error branch of `generatePins` returns the sorted
non-reserved names and the `markerImages` built from them. -/
theorem generatePins_ok_shape (cfg : Config) (w : World) (out : RunOutput)
    (h : (generatePins cfg w).2 = .ok out) :
    out = ⟨svgNamesOf w, mkMarkerImages cfg (svgNamesOf w)⟩ := by
  unfold generatePins at h
  split at h
  · simp at h
  · split at h
    · simp at h
    · unfold pinsEnum at h
      split at h
      · simp at h
      · unfold pinsAccess at h
        split at h
        · simp at h
        · split at h
          · simp at h
          · split at h
            · simp at h
            · unfold pinsMeta at h
              split at h
              · simp at h
              · split at h
                · simp at h
                · split at h
                  · simp at h
                  · simp only [pinsSizes] at h
                    split at h
                    · simp at h
                    · split at h
                      · simp at h
                      · simp only [pinsWrite] at h
                        split at h
                        · simp at h
                        · exact (Except.ok.inj h).symm

/-- C3 (amended): after a successful run, `markerImages` is the freshly
built object regardless of the template's pre-existing content; provided
the 3 + 2N candidate keys are pairwise distinct, it holds exactly the
three reserved keys followed, for each non-reserved icon name in sorted
order, by the `name` and `name ++ "Active"` keys — 3 + 2N entries, each
with uri the trailing-slash-stripped base URI, `/`, the key and `.png`. -/
theorem C3_amended_marker_images (cfg : Config) (w : World) (out : RunOutput)
    (h : (generatePins cfg w).2 = .ok out)
    (hnd : (reservedNames ++ pairKeys out.svgNames).Nodup) :
    out.markerImages.map Prod.fst = reservedNames ++ pairKeys out.svgNames
    ∧ out.markerImages.length = 3 + 2 * out.svgNames.length
    ∧ ∀ kv ∈ out.markerImages,
        kv.2.uri = stripSlashes cfg.mapPinsBaseUri ++ ("/" ++ kv.1 ++ ".png") := by
  have hout := generatePins_ok_shape cfg w out h
  subst hout
  simp only at hnd ⊢
  have hkeys := foldl_addIconEntries_keys cfg (svgNamesOf w)
    [("defaultPin", ⟨stripSlashes cfg.mapPinsBaseUri ++ "/defaultPin.png", cfg.basePinColorDefault⟩),
     ("defaultPinActive", ⟨stripSlashes cfg.mapPinsBaseUri ++ "/defaultPinActive.png", cfg.basePinColorActive⟩),
     ("ownLocationPin", ⟨stripSlashes cfg.mapPinsBaseUri ++ "/ownLocationPin.png", cfg.basePinColorOwn⟩)]
    (by simpa [reservedNames] using hnd)
  refine ⟨?_, ?_, ?_⟩
  · simpa [mkMarkerImages, reservedNames] using hkeys
  · have := congrArg List.length hkeys
    simp only [List.length_map, List.length_append, pairKeys_length] at this
    simpa [mkMarkerImages] using this
  · refine foldl_addIconEntries_uriInv cfg (svgNamesOf w) _ ?_
    intro kv hkv
    simp only [List.mem_cons, List.not_mem_nil, or_false] at hkv
    rcases hkv with hkv | hkv | hkv <;> rw [hkv]
    · exact congrArg (fun t => stripSlashes cfg.mapPinsBaseUri ++ t)
        (by decide : ("/defaultPin.png" : String) = "/" ++ "defaultPin" ++ ".png")
    · exact congrArg (fun t => stripSlashes cfg.mapPinsBaseUri ++ t)
        (by decide : ("/defaultPinActive.png" : String) = "/" ++ "defaultPinActive" ++ ".png")
    · exact congrArg (fun t => stripSlashes cfg.mapPinsBaseUri ++ t)
        (by decide : ("/ownLocationPin.png" : String) = "/" ++ "ownLocationPin" ++ ".png")

/-- An icon directory with the two non-colliding icons `a.svg`, `b.svg`
(listed out of order to exercise the sort). -/
def worldAB : World := { worldReserved with svgDirFiles := ["b.svg", "a.svg"] }

/-- C3 witness: the amended statement applied to a successful concrete
run over the two distinct icons `a` and `b`. -/
theorem C3_witness :
    (mkMarkerImages cfgStd ["a", "b"]).map Prod.fst
        = reservedNames ++ pairKeys ["a", "b"]
    ∧ (mkMarkerImages cfgStd ["a", "b"]).length
        = 3 + 2 * (["a", "b"] : List String).length :=
  have h := C3_amended_marker_images cfgStd worldAB
    ⟨["a", "b"], mkMarkerImages cfgStd ["a", "b"]⟩ rfl (by decide)
  ⟨h.1, h.2.1⟩

/-! ## Claim C9: idempotence of `applyColorMap` for identity entries

For a replacement map whose entries all map a token to itself, every
replacement pass only changes the letter case of the text at the matched
positions.  We capture each pass as a *mask* over the lowercased subject
(`maskF`): `some c` at the positions a pass overwrites, `none` where it
copies the subject.  Match positions depend only on the lowercased
subject, which such passes preserve, so two applications of the whole map
overlay the same masks twice — and overlaying a mask twice is the same as
overlaying it once. -/

/-- The match decision of `maskF`, taken over the lowercased subject. -/
def mhit (bB bA : Bool) (tok : List Char) (prevL : Option Char) (lowS : List Char) : Bool :=
  !tok.isEmpty && List.isPrefixOf (lowerL tok) lowS &&
    (!bB || bnd prevL lowS.head?) &&
    (!bA || bnd ((lowS.take tok.length).getLast?) ((lowS.drop tok.length).head?))

/-- The mask of one identity-replacement pass over the lowercased
subject: `some` of the written character at overwritten positions,
`none` elsewhere. -/
def maskF (bB bA : Bool) (tok : List Char) : Nat → Option Char → List Char → List (Option Char)
  | 0, _, lowS => lowS.map fun _ => none
  | _ + 1, _, [] => []
  | fuel + 1, prevL, c :: cs =>
    if mhit bB bA tok prevL (c :: cs) then
      tok.map some ++ maskF bB bA tok fuel ((List.take tok.length (c :: cs)).getLast?)
        (List.drop tok.length (c :: cs))
    else
      none :: maskF bB bA tok fuel (some c) cs

/-- Overlay a mask onto a subject. -/
def mergeMask : List (Option Char) → List Char → List Char
  | _, [] => []
  | [], s => s
  | o :: os, c :: cs => o.getD c :: mergeMask os cs

/-- Combine two masks, the first taking precedence. -/
def orMask (m₂ m₁ : List (Option Char)) : List (Option Char) :=
  List.zipWith Option.or m₂ m₁

theorem toNat_ofNat_valid (n : ℕ) (h : n.isValidChar) : (Char.ofNat n).toNat = n := by
  rw [Char.ofNat, dif_pos h]
  rfl

theorem lowChar_toNat (c : Char) :
    (lowChar c).toNat = if 65 ≤ c.toNat ∧ c.toNat ≤ 90 then c.toNat + 32 else c.toNat := by
  unfold lowChar
  split
  · rename_i h
    exact toNat_ofNat_valid _ (Or.inl (by omega))
  · rfl

theorem isWordChar_lowChar (c : Char) : isWordChar (lowChar c) = isWordChar c := by
  unfold isWordChar
  rw [lowChar_toNat]
  split <;> rename_i h <;> exact decide_eq_decide.mpr (by omega)

theorem bnd_low (a b : Option Char) :
    bnd (a.map lowChar) (b.map lowChar) = bnd a b := by
  cases a <;> cases b <;> simp [bnd, isWordChar_lowChar]

theorem mhit_hit (bB bA : Bool) (tok : List Char) (prev : Option Char) (s : List Char) :
    mhit bB bA tok (prev.map lowChar) (lowerL s) = hit bB bA tok prev s := by
  unfold mhit hit ciPrefix
  have h1 : (lowerL s).head? = s.head?.map lowChar := List.head?_map _ _
  have h2 : ((lowerL s).take tok.length).getLast?
      = ((s.take tok.length).getLast?).map lowChar := by
    rw [lowerL, ← List.map_take, List.getLast?_map]
  have h3 : ((lowerL s).drop tok.length).head? = ((s.drop tok.length).head?).map lowChar := by
    rw [lowerL, ← List.map_drop, List.head?_map]
  rw [h1, h2, h3, bnd_low, bnd_low]

theorem hit_tok_length {bB bA : Bool} {tok : List Char} {prev : Option Char}
    {s : List Char} (h : hit bB bA tok prev s = true) :
    1 ≤ tok.length ∧ tok.length ≤ s.length := by
  unfold hit at h
  simp only [Bool.and_eq_true] at h
  obtain ⟨⟨⟨h1, h2⟩, -⟩, -⟩ := h
  constructor
  · cases tok
    · simp at h1
    · simp
  · have := (List.isPrefixOf_iff_prefix.1 h2).length_le
    simpa [ciPrefix, lowerL] using this

theorem mergeMask_append : ∀ (m₁ : List (Option Char)) (s₁ : List Char)
    (m₂ : List (Option Char)) (s₂ : List Char), m₁.length = s₁.length →
    mergeMask (m₁ ++ m₂) (s₁ ++ s₂) = mergeMask m₁ s₁ ++ mergeMask m₂ s₂
  | [], [], _, _, _ => rfl
  | [], _ :: _, _, _, h => by simp at h
  | _ :: _, [], _, _, h => by simp at h
  | o :: os, c :: cs, m₂, s₂, h => by
    show o.getD c :: mergeMask (os ++ m₂) (cs ++ s₂)
      = o.getD c :: (mergeMask os cs ++ mergeMask m₂ s₂)
    rw [mergeMask_append os cs m₂ s₂ (by simpa using h)]

theorem mergeMask_map_some : ∀ (l s : List Char), l.length = s.length →
    mergeMask (l.map some) s = l
  | [], [], _ => rfl
  | [], _ :: _, h => by simp at h
  | _ :: _, [], h => by simp at h
  | a :: as, c :: cs, h => by
    show (some a).getD c :: mergeMask (as.map some) cs = a :: as
    rw [Option.getD_some, mergeMask_map_some as cs (by simpa using h)]

/-- Overlaying `tok.map some ++ M` writes `tok` over the first
`tok.length` characters and continues with `M` on the rest. -/
theorem mergeMask_tok_split (tok : List Char) (M : List (Option Char)) (s : List Char)
    (hle : tok.length ≤ s.length) :
    mergeMask (tok.map some ++ M) s = tok ++ mergeMask M (s.drop tok.length) := by
  conv_lhs => rw [← List.take_append_drop tok.length s]
  rw [mergeMask_append _ _ _ _ (by rw [List.length_map, List.length_take]; omega),
    mergeMask_map_some tok _ (by rw [List.length_take]; omega)]

/-- An identity pass is the overlay of its mask (computed on the
lowercased subject) onto the subject. -/
theorem scanF_eq_mergeMask (bB bA : Bool) (tok : List Char) :
    ∀ (fuel : ℕ) (prev : Option Char) (s : List Char), s.length ≤ fuel →
      scanF bB bA tok tok fuel prev s
        = mergeMask (maskF bB bA tok fuel (prev.map lowChar) (lowerL s)) s := by
  intro fuel
  induction fuel with
  | zero =>
    intro prev s hs
    rw [Nat.le_zero, List.length_eq_zero] at hs
    subst hs
    rfl
  | succ fuel ih =>
    intro prev s hs
    cases s with
    | nil => rfl
    | cons c cs =>
      show scanF bB bA tok tok (fuel + 1) prev (c :: cs)
        = mergeMask (maskF bB bA tok (fuel + 1) (prev.map lowChar)
            (lowChar c :: lowerL cs)) (c :: cs)
      rw [scanF, maskF]
      have hcond : mhit bB bA tok (prev.map lowChar) (lowChar c :: lowerL cs)
          = hit bB bA tok prev (c :: cs) := mhit_hit bB bA tok prev (c :: cs)
      by_cases hh : hit bB bA tok prev (c :: cs) = true
      · rw [if_pos hh, if_pos (hcond.trans hh)]
        obtain ⟨htok1, htokle⟩ := hit_tok_length hh
        simp only [List.length_cons] at htokle
        have htake : (lowChar c :: lowerL cs).take tok.length
            = lowerL ((c :: cs).take tok.length) := by
          show (lowerL (c :: cs)).take tok.length = _
          rw [lowerL, lowerL, List.map_take]
        have hdrop : (lowChar c :: lowerL cs).drop tok.length
            = lowerL ((c :: cs).drop tok.length) := by
          show (lowerL (c :: cs)).drop tok.length = _
          rw [lowerL, lowerL, List.map_drop]
        rw [htake, hdrop]
        have hprev : (lowerL ((c :: cs).take tok.length)).getLast?
            = (((c :: cs).take tok.length).getLast?).map lowChar := by
          rw [lowerL, List.getLast?_map]
        rw [hprev]
        have hlen2 : ((c :: cs).drop tok.length).length ≤ fuel := by
          rw [List.length_drop]
          simp only [List.length_cons] at hs ⊢
          omega
        rw [ih _ _ hlen2, mergeMask_tok_split tok _ (c :: cs) (by simpa using htokle)]
      · rw [if_neg hh, if_neg (fun hht => hh (hcond.symm.trans hht))]
        have hcs : cs.length ≤ fuel := by
          simp only [List.length_cons] at hs
          omega
        have := ih (some c) cs hcs
        simp only [Option.map_some] at this
        rw [this]
        rfl

/-- A mask is consistent with a lowercased subject when every written
character lowers to the subject's character at that position. -/
def MaskOk : List (Option Char) → List Char → Prop :=
  List.Forall₂ fun o l => ∀ x, o = some x → lowChar x = l

theorem maskOk_none (low : List Char) : MaskOk (low.map fun _ => none) low := by
  induction low with
  | nil => exact List.Forall₂.nil
  | cons c cs ih => exact List.Forall₂.cons (fun x hx => by cases hx) ih

theorem maskOk_tok (tok : List Char) : MaskOk (tok.map some) (lowerL tok) := by
  induction tok with
  | nil => exact List.Forall₂.nil
  | cons t ts ih =>
    exact List.Forall₂.cons (fun x hx => by cases hx; rfl) ih

theorem mhit_tok_le {bB bA : Bool} {tok : List Char} {prevL : Option Char}
    {lowS : List Char} (h : mhit bB bA tok prevL lowS = true) :
    1 ≤ tok.length ∧ tok.length ≤ lowS.length := by
  unfold mhit at h
  simp only [Bool.and_eq_true] at h
  obtain ⟨⟨⟨h1, h2⟩, -⟩, -⟩ := h
  constructor
  · cases tok
    · simp at h1
    · simp
  · have := (List.isPrefixOf_iff_prefix.1 h2).length_le
    simpa [lowerL] using this

theorem maskF_maskOk (bB bA : Bool) (tok : List Char) :
    ∀ (fuel : ℕ) (prevL : Option Char) (lowS : List Char),
      MaskOk (maskF bB bA tok fuel prevL lowS) lowS := by
  intro fuel
  induction fuel with
  | zero => intro prevL lowS; exact maskOk_none lowS
  | succ fuel ih =>
    intro prevL lowS
    cases lowS with
    | nil => exact List.Forall₂.nil
    | cons c cs =>
      rw [maskF]
      split
      · rename_i hm
        have htk : (lowerL tok).isPrefixOf (c :: cs) = true := by
          unfold mhit at hm
          simp only [Bool.and_eq_true] at hm
          exact hm.1.1.2
        have hpre : lowerL tok <+: c :: cs := List.isPrefixOf_iff_prefix.1 htk
        have htake : (c :: cs).take tok.length = lowerL tok := by
          have h := List.prefix_iff_eq_take.1 hpre
          rw [show (lowerL tok).length = tok.length by simp [lowerL]] at h
          exact h.symm
        conv_rhs => rw [← List.take_append_drop tok.length (c :: cs)]
        refine List.rel_append ?_ (ih _ _)
        rw [htake]
        exact maskOk_tok tok
      · exact List.Forall₂.cons (fun x hx => by cases hx) (ih _ _)

theorem maskOk_length {m : List (Option Char)} {low : List Char}
    (h : MaskOk m low) : m.length = low.length := h.length_eq

theorem lowerL_mergeMask : ∀ (m : List (Option Char)) (s : List Char),
    MaskOk m (lowerL s) → lowerL (mergeMask m s) = lowerL s := by
  intro m s
  induction s generalizing m with
  | nil =>
    intro _
    cases m <;> rfl
  | cons c cs ih =>
    intro h
    cases m with
    | nil => rfl
    | cons o os =>
      have hrel := List.forall₂_cons.1 h
      show lowerL (o.getD c :: mergeMask os cs) = lowChar c :: lowerL cs
      rw [show lowerL (o.getD c :: mergeMask os cs)
          = lowChar (o.getD c) :: lowerL (mergeMask os cs) from rfl]
      rw [ih os hrel.2]
      cases o with
      | none => rfl
      | some x => rw [Option.getD_some, hrel.1 x rfl]

theorem maskOk_orMask {a b : List (Option Char)} {low : List Char}
    (ha : MaskOk a low) (hb : MaskOk b low) : MaskOk (orMask a b) low := by
  induction low generalizing a b with
  | nil =>
    rw [List.forall₂_nil_right_iff.1 ha, List.forall₂_nil_right_iff.1 hb]
    exact List.Forall₂.nil
  | cons c cs ih =>
    obtain ⟨o₁, os₁, h₁, ha', rfl⟩ := List.forall₂_cons_right_iff.1 ha
    obtain ⟨o₂, os₂, h₂, hb', rfl⟩ := List.forall₂_cons_right_iff.1 hb
    show MaskOk (Option.or o₁ o₂ :: orMask os₁ os₂) (c :: cs)
    refine List.Forall₂.cons ?_ (ih ha' hb')
    intro x hx
    cases o₁ with
    | some y =>
      rw [show Option.or (some y) o₂ = some y from rfl] at hx
      cases hx
      exact h₁ x rfl
    | none =>
      rw [show Option.or none o₂ = o₂ from rfl] at hx
      exact h₂ x hx

theorem orMask_self : ∀ (m : List (Option Char)), orMask m m = m
  | [] => rfl
  | o :: os => by
    show Option.or o o :: orMask os os = o :: os
    rw [orMask_self os]
    cases o <;> rfl

theorem orMask_length : ∀ (a b : List (Option Char)), a.length = b.length →
    (orMask a b).length = a.length
  | [], [], _ => rfl
  | [], _ :: _, h => by simp at h
  | _ :: _, [], h => by simp at h
  | o₁ :: os₁, o₂ :: os₂, h => by
    show (orMask os₁ os₂).length + 1 = os₁.length + 1
    rw [orMask_length os₁ os₂ (by simpa using h)]

theorem orMask_none_left : ∀ (low : List Char) (m : List (Option Char)),
    m.length = low.length → orMask (low.map fun _ => none) m = m
  | [], [], _ => rfl
  | [], _ :: _, h => by simp at h
  | _ :: _, [], h => by simp at h
  | c :: cs, o :: os, h => by
    show Option.or none o :: orMask (cs.map fun _ => none) os = o :: os
    rw [orMask_none_left cs os (by simpa using h), show Option.or none o = o from rfl]

theorem orMask_none_right : ∀ (low : List Char) (m : List (Option Char)),
    m.length = low.length → orMask m (low.map fun _ => none) = m
  | [], [], _ => rfl
  | [], _ :: _, h => by simp at h
  | _ :: _, [], h => by simp at h
  | c :: cs, o :: os, h => by
    show Option.or o none :: orMask os (cs.map fun _ => none) = o :: os
    rw [orMask_none_right cs os (by simpa using h)]
    cases o <;> rfl

theorem orMask_assoc : ∀ (a b c : List (Option Char)),
    orMask (orMask a b) c = orMask a (orMask b c)
  | [], _, _ => rfl
  | _ :: _, [], _ => rfl
  | _ :: _, _ :: _, [] => rfl
  | o₁ :: os₁, o₂ :: os₂, o₃ :: os₃ => by
    show Option.or (Option.or o₁ o₂) o₃ :: orMask (orMask os₁ os₂) os₃
      = Option.or o₁ (Option.or o₂ o₃) :: orMask os₁ (orMask os₂ os₃)
    rw [orMask_assoc os₁ os₂ os₃]
    cases o₁ <;> cases o₂ <;> rfl

theorem mergeMask_mergeMask : ∀ (m₂ m₁ : List (Option Char)) (s : List Char),
    m₁.length = s.length → m₂.length = s.length →
    mergeMask m₂ (mergeMask m₁ s) = mergeMask (orMask m₂ m₁) s
  | _, _, [], h₁, h₂ => by
    rw [List.length_nil] at h₁ h₂
    rw [List.length_eq_zero] at h₁ h₂
    subst h₁; subst h₂; rfl
  | [], _, _ :: _, _, h₂ => by simp at h₂
  | _ :: _, [], _ :: _, h₁, _ => by simp at h₁
  | o₂ :: os₂, o₁ :: os₁, c :: cs, h₁, h₂ => by
    show (o₂.getD ((o₁.getD c))) :: mergeMask os₂ (mergeMask os₁ cs)
      = (Option.or o₂ o₁).getD c :: mergeMask (orMask os₂ os₁) cs
    rw [mergeMask_mergeMask os₂ os₁ cs (by simpa using h₁) (by simpa using h₂)]
    cases o₂ <;> cases o₁ <;> rfl

theorem mergeMask_none_map : ∀ (s : List Char),
    mergeMask (s.map fun _ => none) s = s
  | [] => rfl
  | c :: cs => by
    show (none : Option Char).getD c :: mergeMask (cs.map fun _ => none) cs = c :: cs
    rw [mergeMask_none_map cs]
    rfl

theorem maskF_length (bB bA : Bool) (tok : List Char) (fuel : ℕ)
    (prevL : Option Char) (lowS : List Char) :
    (maskF bB bA tok fuel prevL lowS).length = lowS.length :=
  maskOk_length (maskF_maskOk bB bA tok fuel prevL lowS)

/-! ### Entry-level and map-level masks -/

/-- The mask of one `applyColorMap` entry over the lowercased subject:
all-`none` for a skipped entry, the scan mask otherwise. -/
def entryMask (e : List Char × List Char) (low : List Char) : List (Option Char) :=
  if e.1.isEmpty || e.2.isEmpty then low.map fun _ => none
  else maskF (isAlphaTok e.1) (isAlphaTok e.1) e.1 low.length none low

/-- The combined mask of a whole replacement map, later entries taking
precedence. -/
def bigMask (m : List (List Char × List Char)) (low : List Char) : List (Option Char) :=
  m.foldl (fun acc e => orMask (entryMask e low) acc) (low.map fun _ => none)

theorem entryMask_maskOk (e : List Char × List Char) (low : List Char) :
    MaskOk (entryMask e low) low := by
  unfold entryMask
  split
  · exact maskOk_none low
  · exact maskF_maskOk _ _ _ _ _ _

theorem entryMask_length (e : List Char × List Char) (low : List Char) :
    (entryMask e low).length = low.length :=
  maskOk_length (entryMask_maskOk e low)

/-- An identity entry is the overlay of its mask. -/
theorem applyEntry_mask (s : List Char) (e : List Char × List Char)
    (hid : e.1 = e.2) :
    applyEntry s e = mergeMask (entryMask e (lowerL s)) s := by
  unfold applyEntry entryMask
  split
  · rw [show (lowerL s).map (fun _ => (none : Option Char)) = s.map fun _ => none from by
      simp [lowerL, List.map_map, Function.comp_def], mergeMask_none_map s]
  · unfold scanRepl
    rw [← hid, show (lowerL s).length = s.length by simp [lowerL]]
    exact scanF_eq_mergeMask _ _ e.1 s.length none s le_rfl

theorem lowerL_applyEntry (s : List Char) (e : List Char × List Char)
    (hid : e.1 = e.2) : lowerL (applyEntry s e) = lowerL s := by
  rw [applyEntry_mask s e hid]
  exact lowerL_mergeMask _ s (entryMask_maskOk e (lowerL s))

theorem foldl_orMask (low : List Char) :
    ∀ (m : List (List Char × List Char)) (init : List (Option Char)),
      init.length = low.length →
      m.foldl (fun acc e => orMask (entryMask e low) acc) init
        = orMask (bigMask m low) init
  | [], init, h => by
    unfold bigMask
    rw [List.foldl_nil, List.foldl_nil, orMask_none_left low init h]
  | e :: r, init, h => by
    rw [List.foldl_cons,
      foldl_orMask low r (orMask (entryMask e low) init)
        (by rw [orMask_length _ _ ((entryMask_length e low).trans h.symm),
          entryMask_length])]
    have hbig : bigMask (e :: r) low = orMask (bigMask r low) (entryMask e low) := by
      show r.foldl (fun acc e => orMask (entryMask e low) acc)
          (orMask (entryMask e low) (low.map fun _ => none)) = _
      rw [foldl_orMask low r (orMask (entryMask e low) (low.map fun _ => none))
          (by rw [orMask_length _ _ (by simp [entryMask_length]), entryMask_length]),
        orMask_none_right low _ (entryMask_length e low)]
    rw [hbig, orMask_assoc]

theorem noneMask_lowerL (s : List Char) :
    (lowerL s).map (fun _ => (none : Option Char)) = s.map fun _ => none := by
  simp [lowerL, List.map_map, Function.comp_def]

theorem bigMask_cons (e : List Char × List Char) (r : List (List Char × List Char))
    (low : List Char) :
    bigMask (e :: r) low = orMask (bigMask r low) (entryMask e low) := by
  show r.foldl (fun acc e => orMask (entryMask e low) acc)
      (orMask (entryMask e low) (low.map fun _ => none)) = _
  rw [foldl_orMask low r (orMask (entryMask e low) (low.map fun _ => none))
      (by rw [orMask_length _ _ (by simp [entryMask_length]), entryMask_length]),
    orMask_none_right low _ (entryMask_length e low)]

theorem bigMask_maskOk : ∀ (m : List (List Char × List Char)) (low : List Char),
    MaskOk (bigMask m low) low
  | [], low => maskOk_none low
  | e :: r, low => by
    rw [bigMask_cons]
    exact maskOk_orMask (bigMask_maskOk r low) (entryMask_maskOk e low)

theorem bigMask_length (m : List (List Char × List Char)) (low : List Char) :
    (bigMask m low).length = low.length :=
  maskOk_length (bigMask_maskOk m low)

/-- `applyColorMap` with an identity map is the overlay of the map's
combined mask, which depends only on the lowercased subject. -/
theorem applyColorMap_mask : ∀ (m : List (List Char × List Char)) (s : List Char),
    (∀ e ∈ m, e.1 = e.2) →
    applyColorMap s m = mergeMask (bigMask m (lowerL s)) s
  | [], s, _ => by
    show s = mergeMask ((lowerL s).map fun _ => none) s
    rw [noneMask_lowerL, mergeMask_none_map]
  | e :: r, s, hid => by
    have hid' : e.1 = e.2 := hid e (List.mem_cons_self e r)
    have hidr : ∀ e' ∈ r, e'.1 = e'.2 := fun e' he' => hid e' (List.mem_cons_of_mem e he')
    have hlow : (lowerL s).length = s.length := by simp [lowerL]
    show applyColorMap (applyEntry s e) r = _
    rw [applyColorMap_mask r (applyEntry s e) hidr, lowerL_applyEntry s e hid',
      applyEntry_mask s e hid',
      mergeMask_mergeMask _ _ s ((entryMask_length e _).trans hlow)
        ((bigMask_length r _).trans hlow),
      bigMask_cons]

theorem lowerL_applyColorMap (m : List (List Char × List Char)) (s : List Char)
    (hid : ∀ e ∈ m, e.1 = e.2) : lowerL (applyColorMap s m) = lowerL s := by
  rw [applyColorMap_mask m s hid]
  exact lowerL_mergeMask _ s (bigMask_maskOk m (lowerL s))

theorem applyColorMap_idem (m : List (List Char × List Char)) (s : List Char)
    (hid : ∀ e ∈ m, e.1 = e.2) :
    applyColorMap (applyColorMap s m) m = applyColorMap s m := by
  have hlen : (bigMask m (lowerL s)).length = s.length := by
    rw [bigMask_length]
    simp [lowerL]
  rw [applyColorMap_mask m (applyColorMap s m) hid, lowerL_applyColorMap m s hid,
    applyColorMap_mask m s hid, mergeMask_mergeMask _ _ s hlen hlen, orMask_self]

/-- C9: when every entry of the replacement map replaces its match token
by that same token, `applyColorMap` is idempotent, and a single
application only changes letter case (the lowercasings of input and
output coincide). -/
theorem C9_idempotent (m : List (String × String)) (hm : ∀ e ∈ m, e.1 = e.2)
    (svg : String) :
    applyColorMapS (applyColorMapS svg m) m = applyColorMapS svg m
    ∧ lowerL (applyColorMapS svg m).data = lowerL svg.data := by
  have hid : ∀ e ∈ m.map (fun e => (e.1.data, e.2.data)), e.1 = e.2 := by
    intro e he
    obtain ⟨e', he', rfl⟩ := List.mem_map.1 he
    rw [hm e' he']
  exact ⟨congrArg String.mk (applyColorMap_idem _ svg.data hid),
    lowerL_applyColorMap _ svg.data hid⟩

/-- C9 witness: the identity map `{#000 → #000, black → black}` applied
twice to a concrete SVG fragment. -/
theorem C9_witness :
    applyColorMapS
        (applyColorMapS "fill=\"#000\" stroke=\"Black\"" [("#000", "#000"), ("black", "black")])
        [("#000", "#000"), ("black", "black")]
      = applyColorMapS "fill=\"#000\" stroke=\"Black\"" [("#000", "#000"), ("black", "black")] :=
  (C9_idempotent [("#000", "#000"), ("black", "black")] (by decide)
    "fill=\"#000\" stroke=\"Black\"").1

end PinGen
